import Mathlib

/-!
Verification development for the FIRST deterministic crash-consistency
testing framework (Rust). The definitions below are a shallow embedding of
the source files `src/rt.rs`, `src/orchestrator.rs`, `src/test.rs` and
`src/env.rs`: machine integers (`usize`) are modelled as `Nat` with explicit
wrap-around at `2^64`, Rust strings are modelled as `List Char` (the claims
restrict to ASCII, where char positions coincide with byte positions),
environment variables are `Option String`/`Option (List Char)` parameters,
and process-global state (the crash counter) is threaded explicitly.
-/

namespace First

/-- Model of the 64-bit `usize` modulus (`AtomicUsize::fetch_add` wraps). -/
def USIZE_MOD : Nat := 2 ^ 64

/-- Model of `usize::MAX`, the "never crash" sentinel (rt.rs:39). -/
def USIZE_MAX : Nat := 2 ^ 64 - 1

/-- Phase of the current process (rt.rs:24-31). -/
inductive Phase where
  | Orchestrator : Phase
  | Execution : Phase
  | Verify : Phase
deriving DecidableEq

/-- Cached runtime configuration (rt.rs:35-40). -/
structure RuntimeConfig where
  phase : Phase
  target_crash_point : Nat
deriving DecidableEq

/-- Numeric value of a list of decimal digit characters, accumulated
left-to-right (the usual decimal interpretation). -/
def charsVal (cs : List Char) : Nat :=
  List.foldl (fun a c => a * 10 + (c.toNat - 48)) 0 cs

/-- Model of Rust `str::parse::<usize>()` on a byte string: an optional
leading `+`, then one or more ASCII digits, rejecting values above
`usize::MAX`. -/
def parseUsizeChars (cs : List Char) : Option Nat :=
  let body := match cs with
    | c :: rest => if c = ('+' : Char) then rest else cs
    | [] => cs
  if body = [] then none
  else if body.all (fun c => c.isDigit) then
    if charsVal body ≤ USIZE_MAX then some (charsVal body) else none
  else none

/-- Model of Rust `String::parse::<usize>()` (rt.rs:54). -/
def parseUsize (s : String) : Option Nat :=
  parseUsizeChars s.data

/-- Model of `init_runtime` (rt.rs:44-64): derive the `RuntimeConfig` from
the `FIRST_PHASE` and `FIRST_CRASH_TARGET` environment variables. An absent
or non-parsing target silently becomes `usize::MAX` ("never crash"). -/
def init_runtime (envPhase envTarget : Option String) : RuntimeConfig :=
  let phase := match envPhase with
    | some s =>
        if s = ("EXECUTION" : String) then Phase.Execution
        else if s = ("VERIFY" : String) then Phase.Verify
        else Phase.Orchestrator
    | none => Phase.Orchestrator
  let target := if phase = Phase.Execution then
      match envTarget.bind parseUsize with
      | some v => v
      | none => USIZE_MAX
    else USIZE_MAX
  ⟨phase, target⟩

/-- Result of one `crash_point` call (rt.rs:107-132): the new value of the
global `CRASH_COUNTER`, the `current_id` the call observed (`none` outside
the Execution phase, where the counter is not even read), the CrashRecord
arguments emitted to stderr (`emit_crash_metadata(current_id, label)`), and
whether the call terminated the process (`trigger_crash`). -/
structure CrashPointResult where
  counter : Nat
  observed : Option Nat
  emitted : Option (Nat × List Char)
  killed : Bool
deriving DecidableEq

/-- Model of `crash_point` (rt.rs:107-132). In a non-Execution phase it
returns immediately. In Execution it increments the counter (wrapping
`fetch_add`), observes the new 1-indexed `current_id`, and when
`current_id` equals the target it emits the CrashRecord and kills the
process. -/
def crash_point (config : RuntimeConfig) (counter : Nat) (label : List Char) :
    CrashPointResult :=
  if config.phase ≠ Phase.Execution then
    ⟨counter, none, none, false⟩
  else
    let previous := counter
    let current_id := (previous + 1) % USIZE_MOD
    if current_id = config.target_crash_point then
      ⟨(previous + 1) % USIZE_MOD, some current_id, some (current_id, label), true⟩
    else
      ⟨(previous + 1) % USIZE_MOD, some current_id, none, false⟩

/-- Run a workload (its `crash_point` labels in program order) in Execution
phase from a given counter value: returns the emitted CrashRecord data if
some call killed the process, `none` if the workload ran to completion. -/
def runWorkload (config : RuntimeConfig) (counter : Nat) :
    List (List Char) → Option (Nat × List Char)
  | [] => none
  | l :: ls =>
      let r := crash_point config counter l
      if r.killed then r.emitted
      else runWorkload config r.counter ls

/-- The sequence of `current_id` values observed by successive `crash_point`
calls of a workload in Execution phase, truncated at the call (if any) that
kills the process. -/
def execObservations (config : RuntimeConfig) (counter : Nat) :
    List (List Char) → List Nat
  | [] => []
  | l :: ls =>
      let r := crash_point config counter l
      (r.observed.getD 0) :: (if r.killed then [] else execObservations config r.counter ls)

/-- Crash information carried from the Execution child to the Verify child
(env.rs:78-103): the 1-indexed crash point id and the label. -/
structure CrashInfo where
  point_id : Nat
  label : List Char
deriving DecidableEq

/-- Auxiliary decimal rendering with explicit fuel; with fuel at least `n`
this renders `n` in decimal in front of the accumulator. Fuel keeps the
recursion structural so that concrete values reduce in the kernel. -/
def natToCharsAux : Nat → Nat → List Char → List Char
  | 0, _, acc => acc
  | f + 1, n, acc =>
      if n = 0 then acc
      else natToCharsAux f (n / 10) (Char.ofNat (48 + n % 10) :: acc)

/-- Model of Rust `format!("{}", n)` for an unsigned integer: standard
decimal rendering, `"0"` for zero, no leading zeros. -/
def natToChars (n : Nat) : List Char :=
  if n = 0 then [Char.ofNat 48] else natToCharsAux n n []

/-- Replace every occurrence of the character `c` by the string `r`
(model of Rust `str::replace(c, r)`). -/
def replaceChar (c : Char) (r : List Char) : List Char → List Char
  | [] => []
  | x :: xs => (if x = c then r else [x]) ++ replaceChar c r xs

/-- Model of the escaping applied by `emit_crash_metadata` (rt.rs:144):
`label.replace('\\', "\\\\").replace('"', "\\\"")` — every backslash is
doubled first, then every double-quote gets a backslash in front. -/
def escapeJson (s : List Char) : List Char :=
  replaceChar ('"' : Char) [('\\' : Char), ('"' : Char)]
    (replaceChar ('\\' : Char) [('\\' : Char), ('\\' : Char)] s)

/-- Model of `emit_crash_metadata` (rt.rs:136-153): the single CrashRecord
line written to stderr (without the trailing newline). `seedVar` and
`workDirVar` are the values of the `FIRST_SEED` and `FIRST_WORK_DIR`
environment variables; absent ones default to `null` and `unknown`. -/
def emit_crash_metadata (point_id : Nat) (label : List Char)
    (seedVar workDirVar : Option (List Char)) : List Char :=
  let seed := seedVar.getD ("null").data
  let work_dir := workDirVar.getD ("unknown").data
  ("\x7b\"event\":\"crash\",\"point_id\":").data ++ natToChars point_id ++
    (",\"label\":\"").data ++ escapeJson label ++
    ("\",\"seed\":").data ++ seed ++
    (",\"work_dir\":\"").data ++ escapeJson work_dir ++ ("\"\x7d").data

/-- Model of Rust `str::find(&str)` on ASCII text: index of the first
position where `pat` is a prefix of the rest of `s`. -/
def findSub : List Char → List Char → Option Nat
  | [], pat => if pat = [] then some 0 else none
  | c :: rest, pat =>
      if pat.isPrefixOf (c :: rest) then some 0
      else (findSub rest pat).map (· + 1)

/-- Model of Rust `str::find(char)`: index of the first occurrence. -/
def findChar : List Char → Char → Option Nat
  | [], _ => none
  | x :: xs, c => if x = c then some 0 else (findChar xs c).map (· + 1)

/-- The search key `"point_id":` used by the crash-metadata parser. -/
def pointIdKey : List Char := ("\"point_id\":").data

/-- The search key `"label":"` used by the crash-metadata parser. -/
def labelKey : List Char := ("\"label\":\"").data

/-- The line prefix by which `parse_crash_metadata` (orchestrator.rs:281)
recognizes a CrashRecord line. -/
def crashLineKey : List Char := ("\x7b\"event\":\"crash\"").data

/-- The 17 characters of the emitted record that precede the `"point_id":`
key. -/
def chunkHead : List Char := ("\x7b\"event\":\"crash\",").data

/-- The single comma between the `point_id` value and the `"label":"` key
of the emitted record. -/
def chunkComma : List Char := (",").data

/-- The tail of the emitted record after the label, when `FIRST_SEED` and
`FIRST_WORK_DIR` are unset. -/
def chunkTail : List Char :=
  ("\",\"seed\":null,\"work_dir\":\"unknown\"\x7d").data

/-- Model of `parse_crash_json` (orchestrator.rs:292-310): extract
`point_id` (the text between `"point_id":` and the next `,`, parsed as
`usize`; any failure aborts with `None`) and `label` (the text between
`"label":"` and the next `"` — escaped or not — defaulting to `unknown`). -/
def parse_crash_json (json : List Char) : Option CrashInfo :=
  match (findSub json pointIdKey).bind (fun i =>
      let start := i + 11
      (findChar (json.drop start) ',').bind (fun e =>
        parseUsizeChars ((json.drop start).take e))) with
  | none => none
  | some point_id =>
      let label := ((findSub json labelKey).bind (fun i =>
          let start := i + 9
          (findChar (json.drop start) '"').map (fun e =>
            (json.drop start).take e))).getD ("unknown").data
      some ⟨point_id, label⟩

/-- Exit status of a child process: either `exited code` or (on Unix)
`signaled sig` for termination by a signal. `success` is exit code 0;
`code` is `None` for a signal death (std::process::ExitStatus). -/
inductive ExitStatus where
  | exited : Int → ExitStatus
  | signaled : Nat → ExitStatus
deriving DecidableEq

/-- Model of `ExitStatus::success()`. -/
def ExitStatus.success : ExitStatus → Bool
  | .exited 0 => true
  | _ => false

/-- Model of `ExitStatus::code()`: `None` when killed by a signal. -/
def ExitStatus.codeOf : ExitStatus → Option Int
  | .exited c => some c
  | .signaled _ => none

/-- Model of `ExitStatusExt::signal()`: `None` on a normal exit. -/
def ExitStatus.signalOf : ExitStatus → Option Nat
  | .exited _ => none
  | .signaled s => some s

/-- Exit code the runtime's fallback uses for SIGKILL (orchestrator.rs:16). -/
def SIGKILL_EXIT_CODE : Int := 137

/-- Result of a child process execution (orchestrator.rs:169-176). -/
inductive ChildResult where
  | Success : ChildResult
  | Crashed : CrashInfo → ChildResult
  | Failed : Int → ChildResult
deriving DecidableEq

/-- Model of `interpret_exit_status` (orchestrator.rs:313-339): exit 0 is
success; exit code 137 or death by signal 9 is an expected crash, with a
missing CrashRecord replaced by the placeholder `⟨0, "unknown"⟩`; anything
else is a failure carrying `code().unwrap_or(-1)`. -/
def interpret_exit_status (status : ExitStatus) (crash_info : Option CrashInfo) :
    ChildResult :=
  if status.success then ChildResult.Success
  else
    let code := status.codeOf.getD (-1)
    if code = SIGKILL_EXIT_CODE then
      ChildResult.Crashed (crash_info.getD ⟨0, ("unknown").data⟩)
    else
      match status.signalOf with
      | some s =>
          if s = 9 then ChildResult.Crashed (crash_info.getD ⟨0, ("unknown").data⟩)
          else ChildResult.Failed code
      | none => ChildResult.Failed code

/-- Outcome of the orchestrator loop: `success verified passed` models the
loop returning after printing `all <passed> crash points passed`, having
completed one (Execution, Verify) cycle for each target in `verified`;
`failure verified` models `std::process::exit(1)`. -/
inductive OrchOutcome where
  | success : List Nat → Nat → OrchOutcome
  | failure : List Nat → OrchOutcome
deriving DecidableEq

/-- Model of the supervisor loop `run` (orchestrator.rs:53-135), abstracted
over the observable behaviour of the Execution and Verify children for each
target. `fuel` bounds the number of iterations modelled (the Rust loop is
unbounded); `verified` accumulates the targets whose (Execution, Verify)
cycle completed, most recent first. -/
def orchRun (execRes verifyRes : Nat → ChildResult) :
    Nat → Nat → List Nat → Option OrchOutcome
  | 0, _, _ => none
  | fuel + 1, target, verified =>
      match execRes target with
      | ChildResult.Success => some (OrchOutcome.success verified.reverse (target - 1))
      | ChildResult.Crashed _ =>
          (match verifyRes target with
           | ChildResult.Success =>
               orchRun execRes verifyRes fuel (target + 1) (target :: verified)
           | _ => some (OrchOutcome.failure verified.reverse))
      | ChildResult.Failed _ => some (OrchOutcome.failure verified.reverse)

/-- Model of a filesystem path (`std::path::PathBuf`) as an absoluteness
flag and a list of components; components are opaque strings. -/
structure RPath where
  abs : Bool
  comps : List String
deriving DecidableEq

/-- Model of `Path::is_absolute`. -/
def RPath.is_absolute (p : RPath) : Bool := p.abs

/-- Model of `Path::join`: an absolute argument replaces the receiver,
otherwise the components are appended. -/
def RPath.join (p q : RPath) : RPath :=
  if q.abs then q else ⟨p.abs, p.comps ++ q.comps⟩

/-- A relative path with a single component. -/
def relComp (s : String) : RPath := ⟨false, [s]⟩

/-- Environment handed to the user closures (env.rs:11-19): the workspace
root directory. -/
structure Env where
  work_dir : RPath
deriving DecidableEq

/-- Model of `Env::path` (env.rs:42-51): `assert!(!name.is_absolute())`
then `self.work_dir.join(name)`. The panic branch is modelled as `none`.
The function performs no I/O (it is a pure path computation, as is its
model). -/
def Env.path (e : Env) (name : RPath) : Option RPath :=
  if name.is_absolute then none
  else some (e.work_dir.join name)

/-- Model of the per-invocation base directory (orchestrator.rs:47-51):
`<tmp>/first/first-<pid>-<uuid>`. -/
def base_dir (tmp : RPath) (pid : Nat) (uuid : String) : RPath :=
  (tmp.join (relComp ("first"))).join
    (relComp (("first-" : String) ++ toString pid ++ ("-" : String) ++ uuid))

/-- Model of the per-iteration leaf directory the orchestrator creates
before each spawn (orchestrator.rs:55-58): `<base>/run_<target>`. -/
def work_dir (base : RPath) (target : Nat) : RPath :=
  base.join (relComp (("run_" : String) ++ toString target))

/-- The path the orchestrator actually passes to the Execution child in
`FIRST_WORK_DIR`: `run` calls `spawn_child(&exe, &test_name, "EXECUTION",
target, &base_dir)` (orchestrator.rs:66) and `spawn_child` sets
`FIRST_WORK_DIR` to that argument verbatim (orchestrator.rs:191) — the
base directory, not the `run_<target>` leaf. -/
def exec_first_work_dir (base : RPath) (_target : Nat) : RPath := base

/-- The path the orchestrator passes to the Verify child in
`FIRST_WORK_DIR`: `run` calls `spawn_child_with_crash_info` with
`&base_dir` (orchestrator.rs:72) which sets `FIRST_WORK_DIR` to it
verbatim (orchestrator.rs:241). -/
def verify_first_work_dir (base : RPath) (_target : Nat) : RPath := base

/-- The Env root the Builder constructs in the child (test.rs:106-121):
`FIRST_WORK_DIR` is taken verbatim (`PathBuf::from`) and becomes
`Env::new(work_dir)`. -/
def builder_env_root (firstWorkDir : RPath) : Env := ⟨firstWorkDir⟩

/-- A concrete absolute temp directory used to evaluate the workspace
path computations. -/
def tmpRPath : RPath := ⟨true, [("tmp" : String)]⟩

/-! ### Theorems -/

theorem join_rel_comps (p : RPath) (s : String) :
    p.join (relComp s) = ⟨p.abs, p.comps ++ [s]⟩ := by
  simp [RPath.join, relComp]

/-- C1: the path the orchestrator hands every child in `FIRST_WORK_DIR`
(and which the Builder turns verbatim into the child's Env root) is the
base directory itself, not the per-iteration leaf `run_<target>` that the
orchestrator created for that iteration: the Env root never equals the
leaf. Evaluating the code at the failing input (any iteration) exhibits
the divergence from the claim. -/
theorem work_dir_env_is_base_not_leaf (base : RPath) (target : Nat) :
    (builder_env_root (exec_first_work_dir base target)).work_dir = base ∧
    (builder_env_root (exec_first_work_dir base target)).work_dir ≠ work_dir base target ∧
    (builder_env_root (verify_first_work_dir base target)).work_dir = base ∧
    (builder_env_root (exec_first_work_dir (base_dir tmpRPath 1234 ("0a1b")) 1)).work_dir ≠
      work_dir (base_dir tmpRPath 1234 ("0a1b")) 1 := by
  refine ⟨rfl, ?_, rfl, ?_⟩
  · intro hEq
    have hcomps : base.comps = base.comps ++ [("run_" : String) ++ toString target] := by
      rw [work_dir, join_rel_comps] at hEq
      exact congrArg RPath.comps hEq
    have := congrArg List.length hcomps
    simp at this
  · intro hEq
    have hcomps : (base_dir tmpRPath 1234 ("0a1b")).comps =
        (base_dir tmpRPath 1234 ("0a1b")).comps ++ [("run_" : String) ++ toString 1] := by
      rw [work_dir, join_rel_comps] at hEq
      exact congrArg RPath.comps hEq
    have := congrArg List.length hcomps
    simp at this

/-- C7: in Orchestrator and Verify phases `crash_point` is a no-op: the
counter is unchanged, nothing is observed or emitted, and the process is
not terminated. -/
theorem crash_point_noop_non_execution (config : RuntimeConfig)
    (h : config.phase = Phase.Orchestrator ∨ config.phase = Phase.Verify)
    (c : Nat) (l : List Char) :
    crash_point config c l = ⟨c, none, none, false⟩ := by
  unfold crash_point
  rcases h with h | h <;> simp [h]

/-- C7 witness: concrete no-op call in the Orchestrator phase. -/
theorem crash_point_noop_non_execution_witness :
    crash_point ⟨Phase.Orchestrator, USIZE_MAX⟩ 41 [] = ⟨41, none, none, false⟩ :=
  crash_point_noop_non_execution ⟨Phase.Orchestrator, USIZE_MAX⟩ (Or.inl rfl) 41 []

/-- C8: for a relative input and an absolute workspace root, `Env::path`
returns an absolute path lying under the root (the root's components are
a prefix of the result's components). -/
theorem env_path_under_root (e : Env) (p : RPath)
    (hrel : p.is_absolute = false) (hroot : e.work_dir.is_absolute = true) :
    ∃ r, e.path p = some r ∧ r.is_absolute = true ∧
      r.comps = e.work_dir.comps ++ p.comps := by
  refine ⟨e.work_dir.join p, ?_, ?_, ?_⟩
  · simp [Env.path, hrel]
  · simp [RPath.is_absolute, RPath.join] at *
    simp [hrel, hroot]
  · simp [RPath.is_absolute] at hrel
    simp [RPath.join, hrel]

/-- C8 witness: a concrete relative component under a concrete absolute
root. -/
theorem env_path_under_root_witness :
    ∃ r, (Env.mk tmpRPath).path (relComp ("data")) = some r ∧
      r.is_absolute = true ∧
      r.comps = tmpRPath.comps ++ (relComp ("data")).comps :=
  env_path_under_root ⟨tmpRPath⟩ (relComp ("data")) rfl rfl

/-- C9: `Env::path` rejects (panics on) its input exactly when the input
is an absolute path; the model is a pure path computation, performing no
I/O in either case. -/
theorem env_path_rejects_absolute_iff (e : Env) (p : RPath) :
    e.path p = none ↔ p.is_absolute = true := by
  unfold Env.path
  by_cases h : p.is_absolute <;> simp [h]

theorem usize_max_add_one : USIZE_MAX + 1 = USIZE_MOD := by
  norm_num [USIZE_MAX, USIZE_MOD]

theorem crash_point_exec_eq (t c : Nat) (l : List Char) (h : c + 1 < USIZE_MOD) :
    crash_point ⟨Phase.Execution, t⟩ c l =
      if c + 1 = t then ⟨c + 1, some (c + 1), some (c + 1, l), true⟩
      else ⟨c + 1, some (c + 1), none, false⟩ := by
  have hmod : (c + 1) % USIZE_MOD = c + 1 := Nat.mod_eq_of_lt h
  unfold crash_point
  simp [hmod]

/-- C3: in Execution phase each `crash_point` call increments the counter,
observes the new 1-indexed `current_id = counter + 1`, and kills the
process (after emitting the CrashRecord) exactly when `current_id` equals
the target; otherwise it returns normally, having emitted nothing. With
`FIRST_CRASH_TARGET=1` the very first call (counter 0) kills the process. -/
theorem crash_point_execution_contract (t c : Nat) (l : List Char)
    (h : c + 1 < USIZE_MOD) :
    (crash_point ⟨Phase.Execution, t⟩ c l).counter = c + 1 ∧
    (crash_point ⟨Phase.Execution, t⟩ c l).observed = some (c + 1) ∧
    ((crash_point ⟨Phase.Execution, t⟩ c l).killed = true ↔ c + 1 = t) ∧
    (c + 1 = t →
      (crash_point ⟨Phase.Execution, t⟩ c l).emitted = some (c + 1, l)) ∧
    (c + 1 ≠ t →
      crash_point ⟨Phase.Execution, t⟩ c l = ⟨c + 1, some (c + 1), none, false⟩) ∧
    (init_runtime (some ("EXECUTION")) (some ("1"))).target_crash_point = 1 ∧
    (crash_point (init_runtime (some ("EXECUTION")) (some ("1"))) 0 l).killed = true := by
  have hinit : init_runtime (some ("EXECUTION")) (some ("1")) =
      ⟨Phase.Execution, 1⟩ := by decide
  rw [crash_point_exec_eq t c l h]
  refine ⟨?_, ?_, ?_, ?_, ?_, by rw [hinit], by rw [hinit]; rfl⟩ <;>
    by_cases hk : c + 1 = t <;>
    simp [hk]

/-- C3 witness: with target 1, the first call is killed. -/
theorem crash_point_execution_contract_witness :
    0 + 1 < USIZE_MOD ∧
    ((crash_point ⟨Phase.Execution, 1⟩ 0 []).counter = 0 + 1 ∧
     (crash_point ⟨Phase.Execution, 1⟩ 0 []).observed = some (0 + 1) ∧
     ((crash_point ⟨Phase.Execution, 1⟩ 0 []).killed = true ↔ 0 + 1 = 1) ∧
     (0 + 1 = 1 →
       (crash_point ⟨Phase.Execution, 1⟩ 0 []).emitted = some (0 + 1, [])) ∧
     (0 + 1 ≠ 1 →
       crash_point ⟨Phase.Execution, 1⟩ 0 [] = ⟨0 + 1, some (0 + 1), none, false⟩) ∧
     (init_runtime (some ("EXECUTION")) (some ("1"))).target_crash_point = 1 ∧
     (crash_point (init_runtime (some ("EXECUTION")) (some ("1"))) 0 []).killed = true) :=
  ⟨by norm_num [USIZE_MOD],
   crash_point_execution_contract 1 0 [] (by norm_num [USIZE_MOD])⟩

theorem runWorkload_never_target :
    ∀ (labels : List (List Char)) (c : Nat), c + labels.length < USIZE_MAX →
      runWorkload ⟨Phase.Execution, USIZE_MAX⟩ c labels = none := by
  intro labels
  induction labels with
  | nil => intro c _; rfl
  | cons l ls ih =>
      intro c h
      have hM := usize_max_add_one
      have hlen : (l :: ls).length = ls.length + 1 := by simp
      rw [hlen] at h
      have h1 : c + 1 < USIZE_MOD := by omega
      have hmod : (c + 1) % USIZE_MOD = c + 1 := Nat.mod_eq_of_lt h1
      have hne : ¬(c + 1 = USIZE_MAX) := by omega
      unfold runWorkload crash_point
      simp [hmod, hne]
      exact ih (c + 1) (by omega)

/-- C10: when `FIRST_CRASH_TARGET` is absent or does not parse as an
unsigned integer, `init_runtime` silently sets the target to the
never-crash sentinel `usize::MAX`; no call of any workload shorter than
`usize::MAX` crash points ever terminates the process, so the workload
runs to completion as if the schedule were exhausted. -/
theorem missing_crash_target_never_crashes (envTarget : Option String)
    (hs : envTarget.bind parseUsize = none)
    (labels : List (List Char)) (hlen : labels.length < USIZE_MAX) :
    (init_runtime (some ("EXECUTION")) envTarget).phase = Phase.Execution ∧
    (init_runtime (some ("EXECUTION")) envTarget).target_crash_point = USIZE_MAX ∧
    runWorkload (init_runtime (some ("EXECUTION")) envTarget) 0 labels = none := by
  have hcfg : init_runtime (some ("EXECUTION")) envTarget =
      ⟨Phase.Execution, USIZE_MAX⟩ := by
    unfold init_runtime
    simp [hs]
  refine ⟨by rw [hcfg], by rw [hcfg], ?_⟩
  rw [hcfg]
  exact runWorkload_never_target labels 0 (by omega)

/-- C10 witness: a non-numeric target string and a one-point workload. -/
theorem missing_crash_target_never_crashes_witness :
    (some ("abc") : Option String).bind parseUsize = none ∧
    ([("a").data] : List (List Char)).length < USIZE_MAX ∧
    ((init_runtime (some ("EXECUTION")) (some ("abc"))).phase = Phase.Execution ∧
     (init_runtime (some ("EXECUTION")) (some ("abc"))).target_crash_point = USIZE_MAX ∧
     runWorkload (init_runtime (some ("EXECUTION")) (some ("abc"))) 0
       [("a").data] = none) :=
  ⟨by decide, by norm_num [USIZE_MAX],
   missing_crash_target_never_crashes (some ("abc")) (by decide)
     [("a").data] (by norm_num [USIZE_MAX])⟩

theorem execObservations_eq_range (t : Nat) :
    ∀ (labels : List (List Char)) (c : Nat), c + labels.length < USIZE_MOD →
      execObservations ⟨Phase.Execution, t⟩ c labels =
        List.range' (c + 1)
          (execObservations ⟨Phase.Execution, t⟩ c labels).length := by
  intro labels
  induction labels with
  | nil => intro c _; rfl
  | cons l ls ih =>
      intro c h
      have hlen : (l :: ls).length = ls.length + 1 := by simp
      rw [hlen] at h
      have h1 : c + 1 < USIZE_MOD := by omega
      have hcp := crash_point_exec_eq t c l h1
      unfold execObservations
      rw [hcp]
      by_cases hk : c + 1 = t
      · rw [if_pos hk]
        show [c + 1] = List.range' (c + 1) ([c + 1]).length
        simp [List.range']
      · rw [if_neg hk]
        show (c + 1) :: execObservations ⟨Phase.Execution, t⟩ (c + 1) ls =
          List.range' (c + 1)
            ((c + 1) :: execObservations ⟨Phase.Execution, t⟩ (c + 1) ls).length
        rw [List.length_cons, List.range'_succ]
        exact congrArg (List.cons (c + 1)) (ih (c + 1) (by omega))

/-- C6: in any single Execution run, the i-th dynamic `crash_point` call
(1-indexed as `i + 1` for the 0-indexed list position `i`) observes
`current_id = i + 1`: starting from counter 0 the observed values are
exactly 1, 2, 3, ... with no skip or repetition, up to the call (if any)
that terminates the process. -/
theorem counter_monotonicity (t : Nat) (labels : List (List Char))
    (h : labels.length < USIZE_MOD) :
    ∀ (i : Nat) (hi : i < (execObservations ⟨Phase.Execution, t⟩ 0 labels).length),
      (execObservations ⟨Phase.Execution, t⟩ 0 labels).get ⟨i, hi⟩ = i + 1 := by
  intro i hi
  have hr := execObservations_eq_range t labels 0 (by omega)
  rw [List.get_of_eq hr ⟨i, hi⟩, List.get_eq_getElem]
  simp only [Fin.coe_cast]
  rw [List.getElem_range'_1]
  omega

/-- C6 witness: a three-point workload with target 2; the second call
(index 1) observes 2. -/
theorem counter_monotonicity_witness :
    ([("a").data, ("b").data, ("c").data] : List (List Char)).length < USIZE_MOD ∧
    (1 < (execObservations ⟨Phase.Execution, 2⟩ 0
        [("a").data, ("b").data, ("c").data]).length) ∧
    ∀ (hi : 1 < (execObservations ⟨Phase.Execution, 2⟩ 0
        [("a").data, ("b").data, ("c").data]).length),
      (execObservations ⟨Phase.Execution, 2⟩ 0
        [("a").data, ("b").data, ("c").data]).get ⟨1, hi⟩ = 1 + 1 := by
  refine ⟨by norm_num [USIZE_MOD], by decide, ?_⟩
  intro hi
  exact counter_monotonicity 2 [("a").data, ("b").data, ("c").data]
    (by norm_num [USIZE_MOD]) 1 hi

/-- C4: `interpret_exit_status` classifies every Execution-child exit
status into exactly one of three outcomes: exit status 0 is success; being
killed by signal 9 or exiting with code 137 is an expected crash, where a
missing CrashRecord is replaced by the placeholder `⟨0, "unknown"⟩` and,
in the loop, verification proceeds; any other nonzero status is a failure
which makes the loop abort with the failure outcome (`exit(1)`). -/
theorem exit_status_classification (st : ExitStatus) (ci : Option CrashInfo) :
    (interpret_exit_status st ci = ChildResult.Success ↔ st = ExitStatus.exited 0) ∧
    ((st = ExitStatus.exited 137 ∨ st = ExitStatus.signaled 9) →
      interpret_exit_status st ci =
        ChildResult.Crashed (ci.getD ⟨0, ("unknown").data⟩)) ∧
    ((st = ExitStatus.exited 137 ∨ st = ExitStatus.signaled 9) →
      interpret_exit_status st none = ChildResult.Crashed ⟨0, ("unknown").data⟩) ∧
    (st ≠ ExitStatus.exited 0 → st ≠ ExitStatus.exited 137 →
      st ≠ ExitStatus.signaled 9 →
      interpret_exit_status st ci = ChildResult.Failed (st.codeOf.getD (-1))) ∧
    (∀ (er vr : Nat → ChildResult) (fuel target : Nat) (acc : List Nat) (code : Int),
      er target = ChildResult.Failed code →
      orchRun er vr (fuel + 1) target acc = some (OrchOutcome.failure acc.reverse)) ∧
    (∀ (er vr : Nat → ChildResult) (fuel target : Nat) (acc : List Nat)
       (ci' : CrashInfo),
      er target = ChildResult.Crashed ci' → vr target = ChildResult.Success →
      orchRun er vr (fuel + 1) target acc =
        orchRun er vr fuel (target + 1) (target :: acc)) := by
  refine ⟨?_, ?_, ?_, ?_, ?_, ?_⟩
  · constructor
    · intro hre
      rcases st with c | s
      · by_cases hc : c = 0
        · rw [hc]
        · exfalso
          unfold interpret_exit_status at hre
          have hsu : (ExitStatus.exited c).success = false := by
            unfold ExitStatus.success
            rcases c with (_ | p) | n
            · exact absurd rfl hc
            · rfl
            · rfl
          rw [hsu] at hre
          simp only [Bool.false_eq_true, if_false] at hre
          by_cases h137 : ((ExitStatus.exited c).codeOf.getD (-1)) = SIGKILL_EXIT_CODE <;>
            simp [h137, ExitStatus.signalOf] at hre
      · exfalso
        unfold interpret_exit_status at hre
        have hsu : (ExitStatus.signaled s).success = false := rfl
        rw [hsu] at hre
        simp only [Bool.false_eq_true, if_false] at hre
        have h137 : ((ExitStatus.signaled s).codeOf.getD (-1)) ≠ SIGKILL_EXIT_CODE := by
          simp [ExitStatus.codeOf, SIGKILL_EXIT_CODE]
        by_cases h9 : s = 9 <;> simp [h137, ExitStatus.signalOf, h9] at hre
    · intro hst
      rw [hst]
      rfl
  · rintro (hst | hst) <;> rw [hst] <;> rfl
  · rintro (hst | hst) <;> rw [hst] <;> rfl
  · intro h0 h137 h9
    rcases st with c | s
    · have hsu : (ExitStatus.exited c).success = false := by
        unfold ExitStatus.success
        rcases c with (_ | p) | n
        · exact absurd rfl h0
        · rfl
        · rfl
      have hc137 : c ≠ 137 := fun hc => h137 (by rw [hc])
      unfold interpret_exit_status
      rw [hsu]
      simp [ExitStatus.codeOf, ExitStatus.signalOf, SIGKILL_EXIT_CODE, hc137]
    · have hs9 : s ≠ 9 := fun hs => h9 (by rw [hs])
      unfold interpret_exit_status
      simp [ExitStatus.success, ExitStatus.codeOf, ExitStatus.signalOf,
        SIGKILL_EXIT_CODE, hs9]
  · intro er vr fuel target acc code her
    unfold orchRun
    rw [her]
  · intro er vr fuel target acc ci' her hvr
    have hstep : orchRun er vr (fuel + 1) target acc =
        match er target with
        | ChildResult.Success => some (OrchOutcome.success acc.reverse (target - 1))
        | ChildResult.Crashed _ =>
            (match vr target with
             | ChildResult.Success => orchRun er vr fuel (target + 1) (target :: acc)
             | _ => some (OrchOutcome.failure acc.reverse))
        | ChildResult.Failed _ => some (OrchOutcome.failure acc.reverse) := rfl
    rw [hstep, her, hvr]

/-- C4 witness: a signal-9 death with no CrashRecord becomes the
placeholder crash, and in the loop a failed execution aborts. -/
theorem exit_status_classification_witness :
    (interpret_exit_status (ExitStatus.signaled 9) none = ChildResult.Success ↔
      ExitStatus.signaled 9 = ExitStatus.exited 0) ∧
    ((ExitStatus.signaled 9 = ExitStatus.exited 137 ∨
      ExitStatus.signaled 9 = ExitStatus.signaled 9) →
      interpret_exit_status (ExitStatus.signaled 9) none =
        ChildResult.Crashed ((none : Option CrashInfo).getD ⟨0, ("unknown").data⟩)) ∧
    ((ExitStatus.signaled 9 = ExitStatus.exited 137 ∨
      ExitStatus.signaled 9 = ExitStatus.signaled 9) →
      interpret_exit_status (ExitStatus.signaled 9) none =
        ChildResult.Crashed ⟨0, ("unknown").data⟩) ∧
    (ExitStatus.signaled 9 ≠ ExitStatus.exited 0 →
      ExitStatus.signaled 9 ≠ ExitStatus.exited 137 →
      ExitStatus.signaled 9 ≠ ExitStatus.signaled 9 →
      interpret_exit_status (ExitStatus.signaled 9) none =
        ChildResult.Failed ((ExitStatus.signaled 9).codeOf.getD (-1))) ∧
    (∀ (er vr : Nat → ChildResult) (fuel target : Nat) (acc : List Nat) (code : Int),
      er target = ChildResult.Failed code →
      orchRun er vr (fuel + 1) target acc = some (OrchOutcome.failure acc.reverse)) ∧
    (∀ (er vr : Nat → ChildResult) (fuel target : Nat) (acc : List Nat)
       (ci' : CrashInfo),
      er target = ChildResult.Crashed ci' → vr target = ChildResult.Success →
      orchRun er vr (fuel + 1) target acc =
        orchRun er vr fuel (target + 1) (target :: acc)) :=
  exit_status_classification (ExitStatus.signaled 9) none

theorem orchRun_success_aux (K : Nat) (execRes verifyRes : Nat → ChildResult)
    (hlo : ∀ t, 1 ≤ t → t ≤ K → ∃ ci, execRes t = ChildResult.Crashed ci)
    (hhi : execRes (K + 1) = ChildResult.Success)
    (hver : ∀ t, 1 ≤ t → t ≤ K → verifyRes t = ChildResult.Success) :
    ∀ (d : Nat), d ≤ K → ∀ (acc : List Nat),
      orchRun execRes verifyRes (d + 1) (K + 1 - d) acc =
        some (OrchOutcome.success
          (acc.reverse ++ List.range' (K + 1 - d) d) K) := by
  intro d
  induction d with
  | zero =>
      intro _ acc
      unfold orchRun
      rw [Nat.sub_zero, hhi]
      simp
  | succ d ih =>
      intro hd acc
      have ht1 : K + 1 - (d + 1) = K - d := by omega
      have htlo : 1 ≤ K - d := by omega
      have hthi : K - d ≤ K := by omega
      obtain ⟨ci, hci⟩ := hlo (K - d) htlo hthi
      unfold orchRun
      rw [ht1, hci, hver (K - d) htlo hthi]
      have ht2 : K - d + 1 = K + 1 - d := by omega
      rw [ht2, ih (by omega) ((K - d) :: acc)]
      have hrange : List.range' (K - d) (d + 1) =
          (K - d) :: List.range' (K + 1 - d) d := by
        rw [List.range'_succ (K - d) d 1, ht2]
      rw [hrange]
      simp

/-- C5: if the Execution child crashes for every target 1..K and completes
normally for target K+1 (a workload with exactly K reachable crash points
under every prefix), and every verification passes, then the orchestrator
performs exactly K (Execution, Verify) cycles with targets 1 through K,
then one final Execution that exits normally, and returns success
reporting "all K crash points passed". -/
theorem schedule_completeness (K : Nat) (execRes verifyRes : Nat → ChildResult)
    (hlo : ∀ t, 1 ≤ t → t ≤ K → ∃ ci, execRes t = ChildResult.Crashed ci)
    (hhi : ∀ t, K < t → execRes t = ChildResult.Success)
    (hver : ∀ t, 1 ≤ t → t ≤ K → verifyRes t = ChildResult.Success) :
    orchRun execRes verifyRes (K + 1) 1 [] =
      some (OrchOutcome.success (List.range' 1 K) K) := by
  have := orchRun_success_aux K execRes verifyRes hlo
    (hhi (K + 1) (by omega)) hver K (by omega) []
  rw [show K + 1 - K = 1 by omega] at this
  simpa using this

/-- C5 witness: a workload with exactly two crash points. -/
theorem schedule_completeness_witness :
    orchRun
      (fun t => if t ≤ 2 then ChildResult.Crashed ⟨t, []⟩ else ChildResult.Success)
      (fun _ => ChildResult.Success) (2 + 1) 1 [] =
      some (OrchOutcome.success (List.range' 1 2) 2) :=
  schedule_completeness 2
    (fun t => if t ≤ 2 then ChildResult.Crashed ⟨t, []⟩ else ChildResult.Success)
    (fun _ => ChildResult.Success)
    (fun t _ h2 => ⟨⟨t, []⟩, by simp [h2]⟩)
    (fun t ht => by have h2 : ¬ t ≤ 2 := by omega
                    simp [h2])
    (fun _ _ _ => rfl)

theorem prefixOf_append_extend (pat : List Char) :
    ∀ (x rest : List Char), pat.isPrefixOf x = true →
      pat.isPrefixOf (x ++ rest) = true := by
  induction pat with
  | nil => intro x rest _; simp [List.isPrefixOf]
  | cons p ps ih =>
      intro x rest h
      cases x with
      | nil => simp [List.isPrefixOf] at h
      | cons a as =>
          simp only [List.cons_append, List.isPrefixOf, Bool.and_eq_true,
            beq_iff_eq] at h ⊢
          exact ⟨h.1, ih as rest h.2⟩

theorem prefixOf_append_of_le (pat : List Char) :
    ∀ (x rest : List Char), pat.length ≤ x.length →
      pat.isPrefixOf (x ++ rest) = pat.isPrefixOf x := by
  induction pat with
  | nil => intro x rest _; simp [List.isPrefixOf]
  | cons p ps ih =>
      intro x rest h
      cases x with
      | nil => simp at h
      | cons a as =>
          simp only [List.cons_append, List.isPrefixOf, List.append_eq]
          rw [ih as rest (by simpa using h)]

theorem prefixOf_cons_ne (p a : Char) (ps l : List Char) (h : p ≠ a) :
    (p :: ps).isPrefixOf (a :: l) = false := by
  simp [List.isPrefixOf, h]

theorem prefixOf_append_false_of_take_ne (pat : List Char) :
    ∀ (x rest : List Char), x.length ≤ pat.length →
      pat.take x.length ≠ x → pat.isPrefixOf (x ++ rest) = false := by
  induction pat with
  | nil =>
      intro x rest hlen hne
      exfalso
      apply hne
      simp only [List.length_nil, Nat.le_zero] at hlen
      have hx : x = [] := List.eq_nil_of_length_eq_zero hlen
      subst hx
      rfl
  | cons p ps ih =>
      intro x rest hlen hne
      cases x with
      | nil => exact absurd rfl hne
      | cons a as =>
          by_cases hpa : p = a
          · subst hpa
            have hlen' : as.length ≤ ps.length := by simpa using hlen
            have hne' : ps.take as.length ≠ as := by
              intro hEq
              apply hne
              simp [hEq]
            simp only [List.cons_append, List.isPrefixOf, List.append_eq,
              beq_self_eq_true, Bool.true_and]
            exact ih as rest hlen' hne'
          · simp only [List.cons_append]
            exact prefixOf_cons_ne p a ps (as ++ rest) hpa

theorem findSub_of_prefixOf (s pat : List Char) (h : pat.isPrefixOf s = true) :
    findSub s pat = some 0 := by
  cases s with
  | nil =>
      cases pat with
      | nil => rfl
      | cons p ps => simp [List.isPrefixOf] at h
  | cons c rest => simp [findSub, h]

theorem findSub_append_chunk :
    ∀ (a rest pat : List Char),
      (∀ j, j < a.length → pat.isPrefixOf (a.drop j ++ rest) = false) →
      findSub (a ++ rest) pat = (findSub rest pat).map (· + a.length) := by
  intro a
  induction a with
  | nil =>
      intro rest pat _
      cases h : findSub rest pat <;> simp [h]
  | cons c a' ih =>
      intro rest pat hno
      have h0 : pat.isPrefixOf (c :: (a' ++ rest)) = false := by
        have := hno 0 (by simp)
        simpa using this
      simp only [List.cons_append, findSub, List.append_eq, h0,
        Bool.false_eq_true, if_false]
      have hno' : ∀ j, j < a'.length → pat.isPrefixOf (a'.drop j ++ rest) = false := by
        intro j hj
        have := hno (j + 1) (by simp; omega)
        simpa using this
      rw [ih rest pat hno']
      cases h : findSub rest pat <;> simp [h] <;> omega

theorem findSub_append_heads (a rest : List Char) (p : Char) (ps : List Char)
    (h : ∀ x ∈ a, x ≠ p) :
    findSub (a ++ rest) (p :: ps) = (findSub rest (p :: ps)).map (· + a.length) := by
  apply findSub_append_chunk
  intro j hj
  rw [List.drop_eq_getElem_cons hj, List.cons_append]
  exact prefixOf_cons_ne p _ ps _
    (fun hEq => (h (a.get ⟨j, hj⟩) (List.get_mem a j hj)) hEq.symm)

theorem no_match_in_chunk (A rest pat : List Char)
    (hD1 : ∀ j, j < A.length → j + pat.length ≤ A.length →
      pat.isPrefixOf (A.drop j) = false)
    (hD2 : ∀ j, j < A.length → A.length < j + pat.length →
      pat.take (A.length - j) ≠ A.drop j) :
    ∀ j, j < A.length → pat.isPrefixOf (A.drop j ++ rest) = false := by
  intro j hj
  rcases le_or_lt (j + pat.length) A.length with hle | hlt
  · rw [prefixOf_append_of_le pat (A.drop j) rest (by rw [List.length_drop]; omega)]
    exact hD1 j hj hle
  · apply prefixOf_append_false_of_take_ne
    · rw [List.length_drop]; omega
    · rw [List.length_drop]; exact hD2 j hj hlt

theorem findSub_chunk_prefix (A rest pat : List Char)
    (hpre : pat.isPrefixOf rest = true)
    (hno : ∀ j, j < A.length → pat.isPrefixOf (A.drop j ++ rest) = false) :
    findSub (A ++ rest) pat = some A.length := by
  rw [findSub_append_chunk A rest pat hno, findSub_of_prefixOf rest pat hpre]
  simp

theorem findChar_append_of_not_mem (c : Char) :
    ∀ (a rest : List Char), c ∉ a →
      findChar (a ++ rest) c = (findChar rest c).map (· + a.length) := by
  intro a
  induction a with
  | nil =>
      intro rest _
      cases h : findChar rest c <;> simp [h]
  | cons x a' ih =>
      intro rest hm
      have hx : ¬(x = c) := fun hEq => hm (by simp [hEq])
      have h' : c ∉ a' := fun hmm => hm (by simp [hmm])
      simp only [List.cons_append, findChar, List.append_eq, hx, if_false]
      rw [ih rest h']
      cases h : findChar rest c <;> simp [h] <;> omega

theorem findChar_cons_self (c : Char) (l : List Char) :
    findChar (c :: l) c = some 0 := by
  simp [findChar]

theorem natToCharsAux_zero (f : Nat) (acc : List Char) :
    natToCharsAux f 0 acc = acc := by
  cases f <;> rfl

theorem natToCharsAux_shift (f : Nat) :
    ∀ (n : Nat) (acc : List Char),
      natToCharsAux f n acc = natToCharsAux f n [] ++ acc := by
  induction f with
  | zero => intro n acc; rfl
  | succ f ih =>
      intro n acc
      by_cases hn : n = 0
      · simp [natToCharsAux, hn]
      · simp only [natToCharsAux, hn, if_false]
        rw [ih (n / 10) (Char.ofNat (48 + n % 10) :: acc),
          ih (n / 10) [Char.ofNat (48 + n % 10)]]
        simp

theorem natToCharsAux_fuel (f : Nat) :
    ∀ (g n : Nat) (acc : List Char), n ≤ f → n ≤ g →
      natToCharsAux f n acc = natToCharsAux g n acc := by
  induction f with
  | zero =>
      intro g n acc hf _
      have hn : n = 0 := Nat.le_zero.mp hf
      subst hn
      rw [natToCharsAux_zero, natToCharsAux_zero]
  | succ f ih =>
      intro g n acc hf hg
      by_cases hn : n = 0
      · subst hn
        rw [natToCharsAux_zero, natToCharsAux_zero]
      · cases g with
        | zero => omega
        | succ g' =>
            simp only [natToCharsAux, hn, if_false]
            have hd : n / 10 < n := Nat.div_lt_self (Nat.pos_of_ne_zero hn) (by norm_num)
            exact ih g' (n / 10) _ (by omega) (by omega)

theorem natToChars_decomp (n : Nat) (hn : n ≠ 0) :
    natToChars n = (if n / 10 = 0 then [] else natToChars (n / 10)) ++
      [Char.ofNat (48 + n % 10)] := by
  unfold natToChars
  rw [if_neg hn]
  cases n with
  | zero => exact absurd rfl hn
  | succ m =>
      have hstep : natToCharsAux (m + 1) (m + 1) [] =
          natToCharsAux m ((m + 1) / 10) [Char.ofNat (48 + (m + 1) % 10)] := by
        simp [natToCharsAux]
      rw [hstep, natToCharsAux_shift m ((m + 1) / 10) [Char.ofNat (48 + (m + 1) % 10)]]
      by_cases h10 : (m + 1) / 10 = 0
      · rw [h10, natToCharsAux_zero]
        simp
      · rw [if_neg h10]
        have hdle : (m + 1) / 10 ≤ m := by
          have := Nat.div_lt_self (Nat.succ_pos m) (by norm_num : (1 : Nat) < 10)
          omega
        rw [natToCharsAux_fuel m ((m + 1) / 10) ((m + 1) / 10) [] hdle (Nat.le_refl _)]
        rw [if_neg h10]

theorem digit_char_facts :
    ∀ k, k < 10 → (Char.ofNat (48 + k)).isDigit = true ∧
      48 ≤ (Char.ofNat (48 + k)).toNat ∧ (Char.ofNat (48 + k)).toNat ≤ 57 := by
  decide

theorem natToChars_all_digits (n : Nat) :
    ∀ c ∈ natToChars n, c.isDigit = true ∧ 48 ≤ c.toNat ∧ c.toNat ≤ 57 := by
  induction n using Nat.strong_induction_on with
  | _ n ih =>
      by_cases hn : n = 0
      · subst hn
        intro c hc
        simp [natToChars] at hc
        subst hc
        exact digit_char_facts 0 (by norm_num)
      · rw [natToChars_decomp n hn]
        intro c hc
        rw [List.mem_append] at hc
        rcases hc with hc | hc
        · by_cases h10 : n / 10 = 0
          · rw [if_pos h10] at hc
            simp at hc
          · rw [if_neg h10] at hc
            exact ih (n / 10)
              (Nat.div_lt_self (Nat.pos_of_ne_zero hn) (by norm_num)) c hc
        · simp only [List.mem_singleton] at hc
          subst hc
          exact digit_char_facts (n % 10) (Nat.mod_lt _ (by norm_num))

theorem not_mem_natToChars (n : Nat) (c : Char)
    (hc : c.toNat < 48 ∨ 57 < c.toNat) : c ∉ natToChars n := by
  intro hm
  have := natToChars_all_digits n c hm
  omega

theorem charsVal_append_digit (xs : List Char) (d : Char) :
    charsVal (xs ++ [d]) = charsVal xs * 10 + (d.toNat - 48) := by
  unfold charsVal
  rw [List.foldl_append]
  rfl

theorem charsVal_natToChars (n : Nat) : charsVal (natToChars n) = n := by
  induction n using Nat.strong_induction_on with
  | _ n ih =>
      by_cases hn : n = 0
      · subst hn; decide
      · rw [natToChars_decomp n hn, charsVal_append_digit]
        have hd : (Char.ofNat (48 + n % 10)).toNat - 48 = n % 10 := by
          have hff : ∀ k, k < 10 → (Char.ofNat (48 + k)).toNat - 48 = k := by decide
          exact hff (n % 10) (Nat.mod_lt _ (by norm_num))
        have hdm := Nat.div_add_mod n 10
        by_cases h10 : n / 10 = 0
        · rw [if_pos h10, hd]
          show charsVal [] * 10 + n % 10 = n
          have hcv : charsVal [] = 0 := rfl
          rw [hcv]
          omega
        · rw [if_neg h10,
            ih (n / 10) (Nat.div_lt_self (Nat.pos_of_ne_zero hn) (by norm_num)), hd]
          omega

theorem natToChars_ne_nil (n : Nat) : natToChars n ≠ [] := by
  by_cases hn : n = 0
  · subst hn; simp [natToChars]
  · rw [natToChars_decomp n hn]
    simp

theorem parseUsizeChars_natToChars (n : Nat) (h : n ≤ USIZE_MAX) :
    parseUsizeChars (natToChars n) = some n := by
  have hall : (natToChars n).all (fun c => c.isDigit) = true := by
    rw [List.all_eq_true]
    intro c hc
    exact (natToChars_all_digits n c hc).1
  have hbody : (match natToChars n with
      | c :: rest => if c = ('+' : Char) then rest else natToChars n
      | [] => natToChars n) = natToChars n := by
    cases hcs : natToChars n with
    | nil => rfl
    | cons c rest =>
        have hcd : 48 ≤ c.toNat := by
          have := natToChars_all_digits n c (by rw [hcs]; simp)
          omega
        have hplus : ¬(c = ('+' : Char)) := by
          intro hEq
          subst hEq
          revert hcd
          decide
        show (if c = ('+' : Char) then rest else c :: rest) = c :: rest
        rw [if_neg hplus]
  simp only [parseUsizeChars]
  rw [hbody, if_neg (natToChars_ne_nil n), if_pos hall, charsVal_natToChars,
    if_pos h]

theorem replaceChar_eq_self (c : Char) (r : List Char) :
    ∀ (l : List Char), c ∉ l → replaceChar c r l = l := by
  intro l
  induction l with
  | nil => intro _; rfl
  | cons x xs ih =>
      intro h
      have hx : ¬(x = c) := fun hEq => h (by simp [hEq])
      simp [replaceChar, hx, ih (fun hm => h (by simp [hm]))]

theorem escapeJson_eq_self (l : List Char) (hq : ('"' : Char) ∉ l)
    (hb : ('\\' : Char) ∉ l) : escapeJson l = l := by
  unfold escapeJson
  rw [replaceChar_eq_self _ _ l hb, replaceChar_eq_self _ _ l hq]

theorem findSub_append_head (a rest pat : List Char) (p : Char)
    (hp : pat.head? = some p) (h : ∀ x ∈ a, x ≠ p) :
    findSub (a ++ rest) pat = (findSub rest pat).map (· + a.length) := by
  cases pat with
  | nil => simp at hp
  | cons q ps =>
      simp only [List.head?_cons, Option.some.injEq] at hp
      subst hp
      exact findSub_append_heads a rest q ps h

/-- C2 is refuted at the label consisting of a single backslash: the
emitter escapes it to two backslashes, but the parser ends the label at
the next quote without unescaping, so the parsed label has two
backslashes instead of one. -/
theorem crashrecord_roundtrip_counterexample :
    parse_crash_json (emit_crash_metadata 1 [('\\' : Char)] none none) =
      some ⟨1, [('\\' : Char), ('\\' : Char)]⟩ ∧
    parse_crash_json (emit_crash_metadata 1 [('\\' : Char)] none none) ≠
      some ⟨1, [('\\' : Char)]⟩ := by
  constructor <;> decide

/-- C2 (amended): for every `point_id` representable as `usize` and every
ASCII label containing neither a double-quote nor a backslash (with
`FIRST_SEED` and `FIRST_WORK_DIR` unset), the emitted CrashRecord line is
recognized by the orchestrator's prefix check and parses back to a
CrashInfo with the same `point_id` and `label`. Labels containing `"` or
`\` do not round-trip: the emitter escapes them but the parser ends the
label at the next quote, escaped or not, and never unescapes. -/
theorem crashrecord_roundtrip_amended (pid : Nat) (hpid : pid ≤ USIZE_MAX)
    (label : List Char)
    (hq : ('"' : Char) ∉ label) (hb : ('\\' : Char) ∉ label)
    (hascii : ∀ c ∈ label, c.toNat < 128) :
    crashLineKey.isPrefixOf (emit_crash_metadata pid label none none) = true ∧
    parse_crash_json (emit_crash_metadata pid label none none) =
      some ⟨pid, label⟩ := by
  have hesc : escapeJson label = label := escapeJson_eq_self label hq hb
  have hescu : escapeJson (("unknown").data) = ("unknown").data := by decide
  have hline : emit_crash_metadata pid label none none =
      chunkHead ++ (pointIdKey ++ (natToChars pid ++ (chunkComma ++
        (labelKey ++ (label ++ chunkTail))))) := by
    simp only [emit_crash_metadata, Option.getD_none, hesc, hescu]
    simp [chunkHead, chunkComma, chunkTail, pointIdKey, labelKey,
      List.append_assoc]
  have hl1 : chunkHead.length = 17 := by decide
  have hl2 : pointIdKey.length = 11 := by decide
  have hl3 : chunkComma.length = 1 := by decide
  have hl4 : labelKey.length = 9 := by decide
  have hdigq : ∀ x ∈ natToChars pid, x ≠ ('"' : Char) := by
    intro x hx hEq
    have hdd := natToChars_all_digits pid x hx
    rw [hEq] at hdd
    exact absurd hdd.2.1 (by decide)
  have hfind1 : findSub (emit_crash_metadata pid label none none) pointIdKey =
      some 17 := by
    rw [hline, findSub_chunk_prefix chunkHead _ pointIdKey
      (prefixOf_append_extend pointIdKey pointIdKey _ (by decide))
      (no_match_in_chunk chunkHead _ pointIdKey (by decide) (by decide))]
    rw [hl1]
  have hdrop1 : (emit_crash_metadata pid label none none).drop (17 + 11) =
      natToChars pid ++ (chunkComma ++ (labelKey ++ (label ++ chunkTail))) := by
    rw [hline, ← List.append_assoc]
    exact List.drop_left' (by decide)
  have hfc : findChar (natToChars pid ++ (chunkComma ++
      (labelKey ++ (label ++ chunkTail)))) (',' : Char) =
      some (natToChars pid).length := by
    rw [findChar_append_of_not_mem (',' : Char) (natToChars pid) _
      (not_mem_natToChars pid (',' : Char) (Or.inl (by decide)))]
    rw [show chunkComma ++ (labelKey ++ (label ++ chunkTail)) =
      (',' : Char) :: (labelKey ++ (label ++ chunkTail)) from rfl]
    rw [findChar_cons_self]
    simp
  have htk : (natToChars pid ++ (chunkComma ++ (labelKey ++
      (label ++ chunkTail)))).take (natToChars pid).length = natToChars pid :=
    List.take_left _ _
  have hfind2 : findSub (emit_crash_metadata pid label none none) labelKey =
      some (29 + (natToChars pid).length) := by
    rw [hline]
    rw [findSub_append_chunk chunkHead _ labelKey
      (no_match_in_chunk chunkHead _ labelKey (by decide) (by decide))]
    rw [findSub_append_chunk pointIdKey _ labelKey
      (no_match_in_chunk pointIdKey _ labelKey (by decide) (by decide))]
    rw [findSub_append_head (natToChars pid) _ labelKey ('"' : Char)
      (by decide) hdigq]
    rw [findSub_append_head chunkComma _ labelKey ('"' : Char)
      (by decide) (by decide)]
    rw [findSub_of_prefixOf _ labelKey
      (prefixOf_append_extend labelKey labelKey _ (by decide))]
    simp only [Option.map_some']
    rw [hl1, hl2, hl3]
    congr 1
    omega
  have hdrop2 : (emit_crash_metadata pid label none none).drop
      (29 + (natToChars pid).length + 9) = label ++ chunkTail := by
    rw [hline]
    rw [show chunkHead ++ (pointIdKey ++ (natToChars pid ++ (chunkComma ++
        (labelKey ++ (label ++ chunkTail))))) =
      (chunkHead ++ (pointIdKey ++ (natToChars pid ++ (chunkComma ++
        labelKey)))) ++ (label ++ chunkTail) from by simp [List.append_assoc]]
    refine List.drop_left' ?_
    simp only [List.length_append]
    rw [hl1, hl2, hl3, hl4]
    omega
  have hfq : findChar (label ++ chunkTail) ('"' : Char) = some label.length := by
    rw [findChar_append_of_not_mem ('"' : Char) label chunkTail hq]
    rw [show findChar chunkTail ('"' : Char) = some 0 from by decide]
    simp
  have htk2 : (label ++ chunkTail).take label.length = label :=
    List.take_left _ _
  refine ⟨?_, ?_⟩
  · rw [hline]
    exact prefixOf_append_extend crashLineKey chunkHead _ (by decide)
  · simp only [parse_crash_json]
    rw [hfind1]
    simp only [Option.some_bind]
    rw [hdrop1, hfc]
    simp only [Option.some_bind]
    rw [htk, parseUsizeChars_natToChars pid hpid]
    rw [hfind2]
    simp only [Option.some_bind]
    rw [hdrop2, hfq]
    simp only [Option.map_some']
    rw [htk2]
    rfl

/-- C2 (amended) witness: a concrete point id and a plain ASCII label. -/
theorem crashrecord_roundtrip_amended_witness :
    907 ≤ USIZE_MAX ∧
    (('"' : Char) ∉ ("after_write").data) ∧
    (('\\' : Char) ∉ ("after_write").data) ∧
    (∀ c ∈ ("after_write").data, c.toNat < 128) ∧
    (crashLineKey.isPrefixOf
      (emit_crash_metadata 907 (("after_write").data) none none) = true ∧
     parse_crash_json (emit_crash_metadata 907 (("after_write").data) none none) =
      some ⟨907, ("after_write").data⟩) :=
  ⟨by norm_num [USIZE_MAX], by decide, by decide, by decide,
   crashrecord_roundtrip_amended 907 (by norm_num [USIZE_MAX])
     (("after_write").data) (by decide) (by decide) (by decide)⟩

end First
